import Mathlib

/-!
Shallow embedding of `cmd/convert-stw/main.go` (the STWriter-to-text
converter).  Bytes are modelled as `Nat` values below 256, the input as
`List Nat`, and the buffered reader as explicit passing of the remaining
input list.  Diagnostic output (`log.Println` / `log.Printf`) is modelled
as a list of `LogEvent`s, and the fatal `log.Fatal` on a missing header
as the `none` settings field of `ConvertResult`.
-/

namespace ConvertStw

/-- One diagnostic event emitted on the log channel: a failed operand
read (`log.Println(err)`), or the footer/header content reported when a
capture toggle closes (`log.Printf("FOOTER: %s", ...)`). -/
inductive LogEvent where
  | readError : LogEvent
  | footerReport : List Nat → LogEvent
  | headerReport : List Nat → LogEvent
  deriving DecidableEq, Repr

/-- The `documentSettings` struct.  Go's zero-valued `int` fields are
`Int` (the `FontType` enum is an `int` as well), `bool`s are `Bool`, and
`[]byte` buffers are `List Nat` (a nil slice is `[]`). -/
structure DocumentSettings where
  marginTop : Int := 0
  marginBottom : Int := 0
  marginLeft : Int := 0
  marginRight : Int := 0
  marginLeft2 : Int := 0
  marginRight2 : Int := 0
  pageLength : Int := 0
  indent : Int := 0
  font : Int := 0
  headerCapture : Bool := false
  header : List Nat := []
  footerCapture : Bool := false
  footer : List Nat := []
  center : Bool := false
  blockRight : Bool := false
  justified : Bool := false
  startPageNum : Int := 0
  lineSpacing : Int := 0
  paragraphSpacing : Int := 0
  sectionLevel : Int := 0
  chainFile : List Nat := []
  deriving DecidableEq, Repr

/-- The zero value of `documentSettings`, as declared by
`var settings documentSettings` in `convertStw`. -/
def initialSettings : DocumentSettings := {}

/-- The magic header `"Do Run Run STWRITER.PRG\x00"` (24 bytes). -/
def magicBytes : List Nat :=
  [0x44, 0x6F, 0x20, 0x52, 0x75, 0x6E, 0x20, 0x52, 0x75, 0x6E, 0x20,
   0x53, 0x54, 0x57, 0x52, 0x49, 0x54, 0x45, 0x52, 0x2E, 0x50, 0x52, 0x47, 0x00]

/-- Loop body of `readUntil`: `mIdx` is the current match index; each
byte read either advances `mIdx` (on match) or resets it to zero (on
mismatch).  Returns the input remaining after the full pattern matched,
or `none` when the input ends first (the error return). -/
def readUntilAux (mtch : List Nat) : Nat → List Nat → Option (List Nat)
  | mIdx, [] => if mtch.length ≤ mIdx then some [] else none
  | mIdx, b :: rest =>
    if mtch.length ≤ mIdx then some (b :: rest)
    else if b = mtch.getD mIdx 0 then readUntilAux mtch (mIdx + 1) rest
    else readUntilAux mtch 0 rest

/-- `readUntil` from the source: scan for `mtch`, starting at match
index 0. -/
def readUntil (input : List Nat) (mtch : List Nat) : Option (List Nat) :=
  readUntilAux mtch 0 input

/-- ASCII whitespace recognised by `strings.TrimSpace` on single-byte
(hence ASCII-only) space characters; bytes ≥ 0x80 are invalid UTF-8
singletons and are never trimmed. -/
def isSpaceByte (b : Nat) : Bool :=
  b = 0x20 || b = 0x09 || b = 0x0A || b = 0x0B || b = 0x0C || b = 0x0D

/-- `strings.TrimSpace`: drop whitespace from both ends. -/
def trimSpace (l : List Nat) : List Nat :=
  ((l.dropWhile isSpaceByte).reverse.dropWhile isSpaceByte).reverse

/-- Value of an ASCII digit byte, `none` for a non-digit. -/
def digitVal (b : Nat) : Option Nat :=
  if 0x30 ≤ b ∧ b ≤ 0x39 then some (b - 0x30) else none

/-- Accumulate base-10 digits; any non-digit byte is a parse error. -/
def parseDigitsAux : List Nat → Nat → Option Nat
  | [], acc => some acc
  | b :: rest, acc =>
    match digitVal b with
    | some d => parseDigitsAux rest (acc * 10 + d)
    | none => none

/-- A non-empty all-digit run parsed as a natural number. -/
def parseDigits : List Nat → Option Nat
  | [] => none
  | l => parseDigitsAux l 0

/-- `strconv.Atoi`: an optional sign followed by at least one digit
(the operands here are at most 3 bytes, so no overflow concerns). -/
def atoi (l : List Nat) : Option Int :=
  match l with
  | 0x2B :: rest => (parseDigits rest).map fun n => (n : Int)
  | 0x2D :: rest => (parseDigits rest).map fun n => -(n : Int)
  | _ => (parseDigits l).map fun n => (n : Int)

/-- `readInt`: read exactly `n` bytes (`io.ReadFull`, which on short
input consumes everything that was available and errors), trim
whitespace, and parse with `Atoi`.  Returns the parse result and the
remaining input. -/
def readInt (input : List Nat) (n : Nat) : Option Int × List Nat :=
  if input.length < n then (none, [])
  else (atoi (trimSpace (input.take n)), input.drop n)

/-- Loop body of `readString`: accumulate bytes up to (not including)
the terminator, which is consumed; `none` when the input ends before
the terminator is seen. -/
def readStringAux (terminate : Nat) : List Nat → Option (List Nat × List Nat)
  | [] => none
  | b :: rest =>
    if b = terminate then some ([], rest)
    else (readStringAux terminate rest).map fun p => (b :: p.1, p.2)

/-- `readString`: note the source allocates `buf := make([]byte, 80)`
(a length-80 zero slice) and then appends to it, so a successful read
returns 80 NUL bytes followed by the accumulated characters. -/
def readString (input : List Nat) (terminate : Nat) : Option (List Nat) × List Nat :=
  match readStringAux terminate input with
  | some p => (some (List.replicate 80 0 ++ p.1), p.2)
  | none => (none, [])

/-- Go's `copy(dst, src)`: overwrite the first `min |dst| |src|`
elements of `dst` with those of `src`; `dst` keeps its length. -/
def goCopy (dst src : List Nat) : List Nat :=
  src.take (min dst.length src.length) ++ dst.drop (min dst.length src.length)

/-- `strconv.IsPrint(rune(b))` restricted to byte arguments: printable
Latin-1 runes are 0x20–0x7E and 0xA1–0xFF except the soft hyphen
0xAD. -/
def isPrintByte (b : Nat) : Bool :=
  (0x20 ≤ b && b ≤ 0x7E) || (0xA1 ≤ b && b ≤ 0xFF && b ≠ 0xAD)

/-- The codes `case`d by the `switch` in `convertStw`: 0x00 and
0x02–0x19.  Everything else (0x01, 0x1A–0x1F, printable content, high
bytes) falls through to the `default` branch. -/
def dispatched (b : Nat) : Bool :=
  b = 0x00 || (0x02 ≤ b && b ≤ 0x19)

/-- Shared shape of the fixed-width-operand cases: on a successful
`readInt`, apply the state update; on failure log the error and leave
the state unmodified. -/
def intCase (rest : List Nat) (n : Nat) (apply : Int → DocumentSettings)
    (s : DocumentSettings) : DocumentSettings × List Nat × List LogEvent × List Nat :=
  match readInt rest n with
  | (some v, r) => (apply v, [], [], r)
  | (none, r) => (s, [], [LogEvent.readError], r)

/-- Shared shape of the terminator-delimited cases (0x16 and 0x18). -/
def strCase (rest : List Nat) (terminate : Nat) (apply : List Nat → DocumentSettings)
    (s : DocumentSettings) : DocumentSettings × List Nat × List LogEvent × List Nat :=
  match readString rest terminate with
  | (some str, r) => (apply str, [], [], r)
  | (none, r) => (s, [], [LogEvent.readError], r)

/-- One iteration of the `convertStw` main loop: the byte `b` has been
read, `rest` is the input after it.  Returns the new settings, the
bytes written to the output sink, the log events, and the remaining
input (operand reads consume from `rest`). -/
def stepByte (b : Nat) (rest : List Nat) (s : DocumentSettings) :
    DocumentSettings × List Nat × List LogEvent × List Nat :=
  match b with
  | 0x00 => -- end of a line/paragraph: newline, clear line flags
    ({ s with center := false, blockRight := false }, [0x0A], [], rest)
  | 0x02 => intCase rest 3 (fun v => { s with marginBottom := v }) s
  | 0x03 => -- center or block right until end of line
    (if s.center then { s with center := false, blockRight := true }
     else { s with center := true }, [], [], rest)
  | 0x04 => intCase rest 2 (fun v => { s with paragraphSpacing := v }) s
  | 0x05 => (s, [], [], rest) -- page eject: ignore
  | 0x06 => -- footer toggle
    if s.footerCapture then
      ({ s with footerCapture := false }, [], [LogEvent.footerReport s.footer], rest)
    else
      ({ s with footerCapture := true, footer := List.replicate 80 0 }, [], [], rest)
  | 0x07 => intCase rest 2 (fun v => { s with font := v }) s
  | 0x08 => -- header toggle
    if s.headerCapture then
      ({ s with headerCapture := false }, [], [LogEvent.headerReport s.header], rest)
    else
      ({ s with headerCapture := true, header := List.replicate 80 0 }, [], [], rest)
  | 0x09 => intCase rest 2 (fun v => { s with indent := v }) s
  | 0x0A => intCase rest 2 (fun v => { s with justified := v == 1 }) s
  | 0x0B => -- comment marker: write "COMMENT: "
    (s, [0x43, 0x4F, 0x4D, 0x4D, 0x45, 0x4E, 0x54, 0x3A, 0x20], [], rest)
  | 0x0C => intCase rest 3 (fun v => { s with marginLeft := v }) s
  | 0x0D => intCase rest 3 (fun v => { s with marginLeft2 := v }) s
  | 0x0E => intCase rest 3 (fun v => { s with marginRight2 := v }) s
  | 0x0F => intCase rest 3 (fun _ => s) s -- printer code: read and ignore
  | 0x10 => (s, [0x0A, 0x0A], [], rest) -- paragraph: two newlines
  | 0x11 => intCase rest 3 (fun v => { s with startPageNum := v }) s
  | 0x12 => intCase rest 3 (fun v => { s with marginRight := v }) s
  | 0x13 => intCase rest 1 (fun v => { s with lineSpacing := v }) s
  | 0x14 => intCase rest 3 (fun v => { s with marginTop := v }) s
  | 0x15 => intCase rest 1 (fun v => { s with sectionLevel := v }) s
  | 0x16 => -- chain filename: copy(settings.ChainFile, filename)
    strCase rest 0x00 (fun fn => { s with chainFile := goCopy s.chainFile fn }) s
  | 0x17 => (s, [], [], rest) -- page wait: ignore
  | 0x18 => strCase rest 0x18 (fun _ => s) s -- escape block: discard
  | 0x19 => intCase rest 3 (fun v => { s with pageLength := v }) s
  | _ => -- default: drop unprintables, else footer / header / output
    if !isPrintByte b then (s, [], [], rest)
    else if s.footerCapture then ({ s with footer := s.footer ++ [b] }, [], [], rest)
    else if s.headerCapture then ({ s with header := s.header ++ [b] }, [], [], rest)
    else (s, [b], [], rest)

theorem readInt_rest_le (input : List Nat) (n : Nat) :
    (readInt input n).2.length ≤ input.length := by
  unfold readInt
  split
  · simp
  · simp

theorem readStringAux_rest_le (terminate : Nat) (input : List Nat) (p : List Nat × List Nat)
    (h : readStringAux terminate input = some p) : p.2.length ≤ input.length := by
  induction input generalizing p with
  | nil => simp [readStringAux] at h
  | cons b rest ih =>
    unfold readStringAux at h
    split at h
    · cases h
      simp
    · rcases Option.map_eq_some'.mp h with ⟨q, hq, hpq⟩
      have := ih q hq
      subst hpq
      simp
      omega

theorem readString_rest_le (input : List Nat) (terminate : Nat) :
    (readString input terminate).2.length ≤ input.length := by
  unfold readString
  split
  · next p h => exact readStringAux_rest_le terminate input p h
  · simp

theorem intCase_rest_le (rest : List Nat) (n : Nat) (apply : Int → DocumentSettings)
    (s : DocumentSettings) : (intCase rest n apply s).2.2.2.length ≤ rest.length := by
  unfold intCase
  have h := readInt_rest_le rest n
  rcases hr : readInt rest n with ⟨v, r⟩
  rw [hr] at h
  cases v <;> simpa using h

theorem strCase_rest_le (rest : List Nat) (terminate : Nat)
    (apply : List Nat → DocumentSettings) (s : DocumentSettings) :
    (strCase rest terminate apply s).2.2.2.length ≤ rest.length := by
  unfold strCase
  have h := readString_rest_le rest terminate
  rcases hr : readString rest terminate with ⟨v, r⟩
  rw [hr] at h
  cases v <;> simpa using h

set_option maxHeartbeats 1000000 in
theorem stepByte_rest_le (b : Nat) (rest : List Nat) (s : DocumentSettings) :
    (stepByte b rest s).2.2.2.length ≤ rest.length := by
  unfold stepByte
  split <;>
    first
      | apply intCase_rest_le
      | apply strCase_rest_le
      | exact Nat.le_refl _
      | (split <;> first | exact Nat.le_refl _ | (split <;> first | exact Nat.le_refl _ | (split <;> exact Nat.le_refl _)))

/-- The `for` loop of `convertStw` followed by the final flush: consume
the (post-header) input byte by byte, returning the final settings, all
bytes written to the output sink, and the log events in order.  The
loop exits when `ReadByte` fails, i.e. on the empty list. -/
def convertLoop : List Nat → DocumentSettings → DocumentSettings × List Nat × List LogEvent
  | [], s => (s, [], [])
  | b :: rest, s =>
    let r := stepByte b rest s
    let k := convertLoop r.2.2.2 r.1
    (k.1, r.2.1 ++ k.2.1, r.2.2.1 ++ k.2.2)
  termination_by input _ => input.length
  decreasing_by
    have h := stepByte_rest_le b rest s
    simp only [List.length_cons]
    omega

/-- Result of a whole `convertStw` run: `settings = none` models the
`log.Fatal("Did not find STWriter file header")` path, on which nothing
has been written to the output sink and no decode-loop diagnostics were
emitted. -/
structure ConvertResult where
  settings : Option DocumentSettings
  output : List Nat
  log : List LogEvent
  deriving DecidableEq, Repr

/-- Decode an input whose header has already been consumed. -/
def decodeBody (body : List Nat) : ConvertResult :=
  let r := convertLoop body initialSettings
  ⟨some r.1, r.2.1, r.2.2⟩

/-- `convertStw`: locate the magic header with `readUntil`, then run
the decode loop on what follows. -/
def convertStw (input : List Nat) : ConvertResult :=
  match readUntil input magicBytes with
  | none => ⟨none, [], []⟩
  | some rest => decodeBody rest

/-! ### Behaviour of the header search -/

/-- When the scanner has already matched `pre` and the input continues
with the remainder `post` of the pattern, the whole pattern matches and
the input after it is returned. -/
theorem readUntilAux_match (post : List Nat) :
    ∀ (pre rest : List Nat), readUntilAux (pre ++ post) pre.length (post ++ rest) = some rest := by
  induction post with
  | nil =>
    intro pre rest
    cases rest <;> simp [readUntilAux]
  | cons b post ih =>
    intro pre rest
    have hlen : ¬ (pre ++ b :: post).length ≤ pre.length := by
      simp only [List.length_append, List.length_cons]
      omega
    have hget : (pre ++ b :: post).getD pre.length 0 = b := by
      simp [List.getD_append_right, List.getElem_append_right, Nat.sub_self]
    rw [List.cons_append, readUntilAux, if_neg hlen, hget, if_pos rfl]
    have h := ih (pre ++ [b]) rest
    simpa using h

/-- Bytes that cannot even start the pattern are skipped with the match
index still at zero. -/
theorem readUntilAux_skip (mtch : List Nat) (hne : mtch ≠ []) :
    ∀ (pre tail : List Nat), (∀ b ∈ pre, b ≠ mtch.getD 0 0) →
      readUntilAux mtch 0 (pre ++ tail) = readUntilAux mtch 0 tail := by
  intro pre
  induction pre with
  | nil => intro tail _; simp
  | cons b pre ih =>
    intro tail hb
    have hlen : ¬ mtch.length ≤ 0 := by
      cases mtch with
      | nil => exact absurd rfl hne
      | cons c mtch => simp
    have hb0 : ¬ b = mtch.getD 0 0 := hb b (by simp)
    rw [List.cons_append, readUntilAux, if_neg hlen, if_neg hb0]
    exact ih tail fun c hc => hb c (by simp [hc])

/-- If the scan succeeds, the consumed bytes end with the full pattern
(prefixed by the part of the pattern matched before this call). -/
theorem readUntilAux_consumed (mtch : List Nat) :
    ∀ (input rest : List Nat) (mIdx : Nat),
      readUntilAux mtch mIdx input = some rest →
      ∃ mid, input = mid ++ rest ∧ List.IsSuffix mtch (mtch.take mIdx ++ mid) := by
  intro input
  induction input with
  | nil =>
    intro rest mIdx h
    rw [readUntilAux] at h
    split at h
    · next hle =>
      cases h
      exact ⟨[], by simp, by simp [List.take_of_length_le hle]⟩
    · cases h
  | cons b input ih =>
    intro rest mIdx h
    rw [readUntilAux] at h
    split at h
    · next hle =>
      cases h
      exact ⟨[], by simp, by simp [List.take_of_length_le hle]⟩
    · next hle =>
      split at h
      · next heq =>
        obtain ⟨mid, hmid, t, ht⟩ := ih rest (mIdx + 1) h
        refine ⟨b :: mid, by simp [hmid], ?_⟩
        have htake : mtch.take (mIdx + 1) = mtch.take mIdx ++ [b] := by
          have hlt : mIdx < mtch.length := by omega
          rw [List.take_succ, heq]
          simp [List.getD, List.getElem?_eq_getElem hlt]
        refine ⟨t, ?_⟩
        rw [ht, htake]
        simp
      · obtain ⟨mid, hmid, t, ht⟩ := ih rest 0 h
        refine ⟨b :: mid, by simp [hmid], ?_⟩
        simp only [List.take_zero, List.nil_append] at ht
        exact ⟨mtch.take mIdx ++ b :: t, by simp [← ht]⟩

/-- A successful `readUntil` means the pattern occurred as a contiguous
substring of the input. -/
theorem readUntil_substring (input mtch rest : List Nat)
    (h : readUntil input mtch = some rest) : List.IsInfix mtch input := by
  obtain ⟨mid, hmid, t, ht⟩ := readUntilAux_consumed mtch input rest 0 h
  simp only [List.take_zero, List.nil_append] at ht
  exact ⟨t, rest, by rw [hmid, ← ht]⟩

/-- Running the converter on an input made of junk that never shows the
first magic byte, then the magic header, then a body: the header is
found and the body is decoded. -/
theorem convertStw_magic (pre rest : List Nat) (hpre : ∀ b ∈ pre, b ≠ 0x44) :
    readUntil (pre ++ magicBytes ++ rest) magicBytes = some rest ∧
      convertStw (pre ++ magicBytes ++ rest) = decodeBody rest := by
  have hskip := readUntilAux_skip magicBytes (by simp [magicBytes]) pre (magicBytes ++ rest)
    (by intro b hb; simpa [magicBytes] using hpre b hb)
  have hmatch := readUntilAux_match magicBytes [] rest
  simp only [List.nil_append, List.length_nil] at hmatch
  have hread : readUntil (pre ++ magicBytes ++ rest) magicBytes = some rest := by
    rw [readUntil, List.append_assoc, hskip, hmatch]
  refine ⟨hread, ?_⟩
  rw [convertStw, hread]

/-- A decode run on an input that starts with the magic header decodes
exactly the body after the header. -/
theorem convertStw_of_magic (body : List Nat) :
    convertStw (magicBytes ++ body) = decodeBody body := by
  have h := (convertStw_magic [] body (by simp)).2
  simpa using h

/-! ### Behaviour of the dispatch loop -/

/-- Bytes outside the `switch`ed control codes take the `default`
branch: unprintables are dropped, printables go to the footer buffer,
else the header buffer, else the output sink. -/
theorem stepByte_default (b : Nat) (rest : List Nat) (s : DocumentSettings)
    (hb : dispatched b = false) :
    stepByte b rest s =
      if !isPrintByte b then (s, [], [], rest)
      else if s.footerCapture then ({ s with footer := s.footer ++ [b] }, [], [], rest)
      else if s.headerCapture then ({ s with header := s.header ++ [b] }, [], [], rest)
      else (s, [b], [], rest) := by
  simp only [dispatched, Bool.or_eq_false_iff, Bool.and_eq_false_iff, decide_eq_false_iff_not] at hb
  unfold stepByte
  split
  all_goals first
    | rfl
    | omega

/-- While footer capture is on, a run of printable ASCII bytes is
appended to the footer buffer: nothing reaches the output sink and
nothing is logged. -/
theorem convertLoop_capture_footer (content : List Nat) :
    ∀ s : DocumentSettings, s.footerCapture = true →
      (∀ b ∈ content, 0x20 ≤ b ∧ b ≤ 0x7E) →
      convertLoop content s = ({ s with footer := s.footer ++ content }, [], []) := by
  induction content with
  | nil => intro s hf _; simp [convertLoop]
  | cons b content ih =>
    intro s hf hb
    obtain ⟨hb1, hb2⟩ := hb b (by simp)
    have hd : dispatched b = false := by
      simp only [dispatched, Bool.or_eq_false_iff, Bool.and_eq_false_iff,
        decide_eq_false_iff_not]
      omega
    have hp : isPrintByte b = true := by
      simp only [isPrintByte, Bool.or_eq_true, Bool.and_eq_true, decide_eq_true_eq]
      omega
    have hstep : stepByte b content s = ({ s with footer := s.footer ++ [b] }, [], [], content) := by
      rw [stepByte_default b content s hd, hp, hf]
      simp
    have ihs := ih { s with footer := s.footer ++ [b] } (by simpa using hf)
      (fun c hc => hb c (by simp [hc]))
    rw [convertLoop]
    simp only [hstep, ihs]
    simp

/-- While header capture is on and footer capture is off, a run of
printable ASCII bytes is appended to the header buffer, and footer
capture stays off. -/
theorem convertLoop_capture_header (content : List Nat) :
    ∀ s : DocumentSettings, s.footerCapture = false → s.headerCapture = true →
      (∀ b ∈ content, 0x20 ≤ b ∧ b ≤ 0x7E) →
      convertLoop content s = ({ s with header := s.header ++ content }, [], []) := by
  induction content with
  | nil => intro s _ hh _; simp [convertLoop]
  | cons b content ih =>
    intro s hf hh hb
    obtain ⟨hb1, hb2⟩ := hb b (by simp)
    have hd : dispatched b = false := by
      simp only [dispatched, Bool.or_eq_false_iff, Bool.and_eq_false_iff,
        decide_eq_false_iff_not]
      omega
    have hp : isPrintByte b = true := by
      simp only [isPrintByte, Bool.or_eq_true, Bool.and_eq_true, decide_eq_true_eq]
      omega
    have hstep : stepByte b content s = ({ s with header := s.header ++ [b] }, [], [], content) := by
      rw [stepByte_default b content s hd, hp, hf, hh]
      simp
    have ihs := ih { s with header := s.header ++ [b] } (by simpa using hf)
      (by simpa using hh) (fun c hc => hb c (by simp [hc]))
    rw [convertLoop]
    simp only [hstep, ihs]
    simp

/-! ### Claims -/

/-- C1 (counterexample): the claimed mutual exclusion of the Center and
BlockRight flags fails on the code: after the header, three consecutive
0x03 codes leave a reachable Document State with Center and BlockRight
both true (the 0x03 case never clears BlockRight). -/
theorem c1_counterexample :
    ((convertStw (magicBytes ++ [0x03, 0x03, 0x03])).settings.map DocumentSettings.center
        = some true) ∧
    ((convertStw (magicBytes ++ [0x03, 0x03, 0x03])).settings.map DocumentSettings.blockRight
        = some true) := by
  rw [convertStw_of_magic]
  constructor <;> simp [decodeBody, convertLoop, stepByte, initialSettings]

/-- C1 (amended): a 0x03 with Center off turns Center on and leaves
BlockRight unchanged; a 0x03 with Center on turns Center off and
BlockRight on; a 0x00 resets both flags.  Hence from the initial state
one 0x03 gives center only, a second gives block-right only, and a
0x00 resets both — but the flags are not mutually exclusive: a third
consecutive 0x03 leaves both true. -/
theorem c1_amended :
    (∀ (s : DocumentSettings) (rest : List Nat),
        (stepByte 0x03 rest s).1.center = !s.center ∧
        (stepByte 0x03 rest s).1.blockRight = (s.blockRight || s.center)) ∧
    (∀ (s : DocumentSettings) (rest : List Nat),
        (stepByte 0x00 rest s).1.center = false ∧
        (stepByte 0x00 rest s).1.blockRight = false) ∧
    ((convertStw (magicBytes ++ [0x03])).settings.map
        (fun s => (s.center, s.blockRight)) = some (true, false)) ∧
    ((convertStw (magicBytes ++ [0x03, 0x03])).settings.map
        (fun s => (s.center, s.blockRight)) = some (false, true)) ∧
    ((convertStw (magicBytes ++ [0x03, 0x03, 0x00])).settings.map
        (fun s => (s.center, s.blockRight)) = some (false, false)) ∧
    ((convertStw (magicBytes ++ [0x03, 0x03, 0x03])).settings.map
        (fun s => (s.center, s.blockRight)) = some (true, true)) := by
  refine ⟨?_, ?_, ?_, ?_, ?_, ?_⟩
  · intro s rest
    cases hs : s.center <;> simp [stepByte, hs]
  · intro s rest
    simp [stepByte]
  all_goals
    rw [convertStw_of_magic]
    simp [decodeBody, convertLoop, stepByte, initialSettings]

/-- C2 (counterexample): the input `0x44 :: magicBytes` contains the
magic sequence (at offset 1), yet the preamble search misses it and the
run reports header-not-found with no output: after the first two bytes
`D D` the scanner resets its match index without re-examining the
second `D`. -/
theorem c2_counterexample :
    List.IsInfix magicBytes (0x44 :: magicBytes) ∧
    convertStw (0x44 :: magicBytes) = ⟨none, [], []⟩ := by
  constructor
  · exact ⟨[0x44], [], by simp⟩
  · rfl

/-- C2 (amended): for every input of the form `pre ++ magic ++ rest`
where the skipped prefix contains no 0x44 (`'D'`, the first magic
byte), the preamble search locates the magic sequence, all bytes
before it are ignored, and decoding proceeds on the bytes after it. -/
theorem c2_amended (pre rest : List Nat) (hpre : ∀ b ∈ pre, b ≠ 0x44) :
    readUntil (pre ++ magicBytes ++ rest) magicBytes = some rest ∧
      convertStw (pre ++ magicBytes ++ rest) = decodeBody rest :=
  convertStw_magic pre rest hpre

/-- C2 (witness): the amended theorem at the concrete prefix `[0x58]`
and empty body. -/
theorem c2_amended_witness :
    (∀ b ∈ [0x58], b ≠ 0x44) ∧
      (readUntil ([0x58] ++ magicBytes ++ []) magicBytes = some [] ∧
        convertStw ([0x58] ++ magicBytes ++ []) = decodeBody []) :=
  ⟨by decide, c2_amended [0x58] [] (by decide)⟩

/-- C3 (code evaluation): after `0x16 'A' 'B' 0x00` the chain-file
buffer is empty, not `"AB"`: `copy(settings.ChainFile, filename)`
copies into the nil `ChainFile` slice, so zero bytes are stored and the
final Document State equals the initial one. -/
theorem c3_code_evaluation :
    (convertStw (magicBytes ++ [0x16, 0x41, 0x42, 0x00])).settings = some initialSettings ∧
    initialSettings.chainFile = [] := by
  constructor
  · rw [convertStw_of_magic]
    simp [decodeBody, convertLoop, stepByte, strCase, readString, readStringAux, goCopy,
      initialSettings]
  · rfl

/-- C4 (code evaluation): two consecutive 0x06 codes report a footer of
80 NUL bytes, not an empty footer: the first toggle does
`Footer = make([]byte, 80)`, a length-80 zero-filled slice.  The
footer-capture flag is false afterward (the final settings keep the
default `footerCapture := false`). -/
theorem c4_code_evaluation :
    convertStw (magicBytes ++ [0x06, 0x06]) =
      ⟨some { initialSettings with footer := List.replicate 80 0 }, [],
        [LogEvent.footerReport (List.replicate 80 0)]⟩ := by
  rw [convertStw_of_magic]
  simp [decodeBody, convertLoop, stepByte, initialSettings]

/-- C5: the end-to-end scenario: header, `"AB"`, 0x10, `"CD"`, 0x00
produces exactly the output bytes `"AB\n\nCD\n"`. -/
theorem c5_end_to_end :
    (convertStw (magicBytes ++ [0x41, 0x42, 0x10, 0x43, 0x44, 0x00])).output =
      [0x41, 0x42, 0x0A, 0x0A, 0x43, 0x44, 0x0A] := by
  rw [convertStw_of_magic]
  simp [decodeBody, convertLoop, stepByte, initialSettings, isPrintByte]

/-- C6: any input that does not contain the magic sequence as a
contiguous substring makes the run fatal (no settings) with no bytes
emitted to the text output and no decode diagnostics. -/
theorem c6_no_header (input : List Nat) (h : ¬ List.IsInfix magicBytes input) :
    convertStw input = ⟨none, [], []⟩ := by
  cases hr : readUntil input magicBytes with
  | none => rw [convertStw, hr]
  | some rest => exact absurd (readUntil_substring input magicBytes rest hr) h

/-- C6 (witness): the one-byte input `[0x41]` does not contain the
magic sequence, and its run is fatal with no output. -/
theorem c6_no_header_witness :
    ¬ List.IsInfix magicBytes [0x41] ∧ convertStw [0x41] = ⟨none, [], []⟩ := by
  have hni : ¬ List.IsInfix magicBytes [0x41] := by
    intro h
    have := h.length_le
    simp [magicBytes] at this
  exact ⟨hni, c6_no_header [0x41] hni⟩

/-- C7: a 0x07 (font change) followed by a single byte and then
end-of-input leaves the whole Document State (the Font field included)
unmodified, logs a non-fatal read diagnostic, terminates normally, and
emits no leftover operand byte to the text output. -/
theorem c7_short_font_operand (b : Nat) (s : DocumentSettings) :
    convertLoop [0x07, b] s = (s, [], [LogEvent.readError]) ∧
    convertStw (magicBytes ++ [0x07, b]) = ⟨some initialSettings, [], [LogEvent.readError]⟩ := by
  have hgen : ∀ t : DocumentSettings, convertLoop [0x07, b] t = (t, [], [LogEvent.readError]) := by
    intro t
    have hstep : stepByte 0x07 [b] t = (t, [], [LogEvent.readError], []) := by
      simp [stepByte, intCase, readInt]
    rw [convertLoop]
    simp [hstep, convertLoop]
  refine ⟨hgen s, ?_⟩
  rw [convertStw_of_magic]
  simp [decodeBody, hgen initialSettings]

/-- C8: 0x0C followed by the ASCII bytes `"010"` sets margin-left to
10, and followed by `" 10"` (leading space) also sets 10: the 3-byte
operand is whitespace-trimmed and parsed base 10. -/
theorem c8_margin_left_operand (s : DocumentSettings) (rest : List Nat) :
    stepByte 0x0C (0x30 :: 0x31 :: 0x30 :: rest) s =
      ({ s with marginLeft := 10 }, [], [], rest) ∧
    stepByte 0x0C (0x20 :: 0x31 :: 0x30 :: rest) s =
      ({ s with marginLeft := 10 }, [], [], rest) := by
  have hr1 : readInt (0x30 :: 0x31 :: 0x30 :: rest) 3 = (some 10, rest) := by
    rw [readInt, if_neg (by simp only [List.length_cons]; omega)]
    simp [trimSpace, isSpaceByte, atoi, parseDigits, parseDigitsAux, digitVal]
  have hr2 : readInt (0x20 :: 0x31 :: 0x30 :: rest) 3 = (some 10, rest) := by
    rw [readInt, if_neg (by simp only [List.length_cons]; omega)]
    simp [trimSpace, isSpaceByte, atoi, parseDigits, parseDigitsAux, digitVal]
  constructor <;> simp [stepByte, intCase, hr1, hr2]

/-- C9: a byte outside the dispatched control codes is dropped when
unprintable; a printable one goes to exactly one destination, the
footer buffer being checked before the header buffer, and the text
sink only when neither capture is active.  The state, output, log and
remaining input are exactly as the default branch dictates. -/
theorem c9_default_routing (b : Nat) (rest : List Nat) (s : DocumentSettings)
    (hb : dispatched b = false) :
    (isPrintByte b = false → stepByte b rest s = (s, [], [], rest)) ∧
    (isPrintByte b = true → s.footerCapture = true →
      stepByte b rest s = ({ s with footer := s.footer ++ [b] }, [], [], rest)) ∧
    (isPrintByte b = true → s.footerCapture = false → s.headerCapture = true →
      stepByte b rest s = ({ s with header := s.header ++ [b] }, [], [], rest)) ∧
    (isPrintByte b = true → s.footerCapture = false → s.headerCapture = false →
      stepByte b rest s = (s, [b], [], rest)) := by
  rw [stepByte_default b rest s hb]
  refine ⟨?_, ?_, ?_, ?_⟩
  · intro h1; simp [h1]
  · intro h1 h2; simp [h1, h2]
  · intro h1 h2 h3; simp [h1, h2, h3]
  · intro h1 h2 h3; simp [h1, h2, h3]

/-- C9 (witness): the routing theorem at the printable byte `'A'` with
no capture active. -/
theorem c9_default_routing_witness :
    dispatched 0x41 = false ∧
      ((isPrintByte 0x41 = false → stepByte 0x41 [] initialSettings = (initialSettings, [], [], [])) ∧
       (isPrintByte 0x41 = true → initialSettings.footerCapture = true →
         stepByte 0x41 [] initialSettings =
           ({ initialSettings with footer := initialSettings.footer ++ [0x41] }, [], [], [])) ∧
       (isPrintByte 0x41 = true → initialSettings.footerCapture = false →
           initialSettings.headerCapture = true →
         stepByte 0x41 [] initialSettings =
           ({ initialSettings with header := initialSettings.header ++ [0x41] }, [], [], [])) ∧
       (isPrintByte 0x41 = true → initialSettings.footerCapture = false →
           initialSettings.headerCapture = false →
         stepByte 0x41 [] initialSettings = (initialSettings, [0x41], [], []))) :=
  ⟨by decide, c9_default_routing 0x41 [] initialSettings (by decide)⟩

/-- C10: when the input ends while footer (resp. header) capture is
open, the run terminates normally, the final state keeps the capture
flag true with the captured bytes accumulated in the buffer (after the
80 NUL bytes the toggle allocated), and the captured content is
neither reported on the log channel nor written to the text output. -/
theorem c10_capture_open_at_eof (content : List Nat)
    (hc : ∀ b ∈ content, 0x20 ≤ b ∧ b ≤ 0x7E) :
    convertStw (magicBytes ++ 0x06 :: content) =
      ⟨some { initialSettings with footerCapture := true, footer := List.replicate 80 0 ++ content }, [], []⟩ ∧
    convertStw (magicBytes ++ 0x08 :: content) =
      ⟨some { initialSettings with headerCapture := true, header := List.replicate 80 0 ++ content }, [], []⟩ := by
  constructor
  · rw [convertStw_of_magic]
    have hstep : stepByte 0x06 content initialSettings =
        ({ initialSettings with footerCapture := true, footer := List.replicate 80 0 },
          [], [], content) := rfl
    have hcl := convertLoop_capture_footer content
      { initialSettings with footerCapture := true, footer := List.replicate 80 0 } rfl hc
    rw [decodeBody, convertLoop]
    simp only [hstep]
    rw [hcl]
    rfl
  · rw [convertStw_of_magic]
    have hstep : stepByte 0x08 content initialSettings =
        ({ initialSettings with headerCapture := true, header := List.replicate 80 0 },
          [], [], content) := rfl
    have hcl := convertLoop_capture_header content
      { initialSettings with headerCapture := true, header := List.replicate 80 0 } rfl rfl hc
    rw [decodeBody, convertLoop]
    simp only [hstep]
    rw [hcl]
    rfl

/-- C10 (witness): the open-capture theorem at the one-byte content
`"A"`. -/
theorem c10_capture_open_at_eof_witness :
    (∀ b ∈ [0x41], 0x20 ≤ b ∧ b ≤ 0x7E) ∧
      (convertStw (magicBytes ++ 0x06 :: [0x41]) =
        ⟨some { initialSettings with footerCapture := true, footer := List.replicate 80 0 ++ [0x41] }, [], []⟩ ∧
       convertStw (magicBytes ++ 0x08 :: [0x41]) =
        ⟨some { initialSettings with headerCapture := true, header := List.replicate 80 0 ++ [0x41] }, [], []⟩) :=
  ⟨by decide, c10_capture_open_at_eof [0x41] (by decide)⟩

end ConvertStw
